import Mathlib

/-!
Verification of the multi-tenant inference admission and dispatch scheduler
against its natural-language specification.  The definitions below are a
shallow embedding of the Python sources (`src/tenant_manager.py`,
`src/models.py`, `src/server.py`, `src/gpu_simulator.py`,
`src/homeostatic_governor.py`): wall-clock readings and token counts are
modelled as exact rationals, Python ints as `ℕ`/`ℤ`, and real-valued
transcendental arithmetic (entropy, exponential window scaling) over `ℝ`.
-/

namespace Scheduler

/-- `TenantConfig` from `src/models.py`: pydantic validates
`rate_limit > 0` (float) and `burst_cap > 0` (int); those validation facts
appear as hypotheses where needed. -/
structure TenantConfig where
  tenant_id : String
  rate_limit : ℚ
  burst_cap : ℕ
deriving DecidableEq, Repr

/-- One token bucket: `TenantManager._buckets[tid] = (current_tokens, last_update_time)`. -/
structure BucketState where
  tokens : ℚ
  last_update : ℚ
deriving DecidableEq, Repr

/-- `TenantManager._refill_bucket` (src/tenant_manager.py lines 37-60), for a
registered tenant: computes the refilled token count and the updated bucket.
`now` is the `time.time()` reading taken inside the call.  Note the source
does not clamp a negative `elapsed`. -/
def refill_bucket (cfg : TenantConfig) (b : BucketState) (now : ℚ) : ℚ × BucketState :=
  let elapsed := now - b.last_update
  let new_tokens := b.tokens + elapsed * cfg.rate_limit
  let current_tokens := min ((cfg.burst_cap : ℚ)) new_tokens
  (current_tokens, ⟨current_tokens, now⟩)

/-- `TenantManager.consume` (src/tenant_manager.py lines 62-89), bucket-level
core for a registered tenant.  The source calls `time.time()` twice: once in
`_refill_bucket` (`now`) and once more on the accept path (`now₂`). -/
def consume (cfg : TenantConfig) (b : BucketState) (amount : ℚ) (now now₂ : ℚ) :
    Bool × BucketState :=
  let r := refill_bucket cfg b now
  if amount ≤ r.1 then (true, ⟨r.1 - amount, now₂⟩)
  else (false, r.2)

/-- The claimed behaviour of `consume`, written from the spec's words
(section 4.1) for refinement comparison with the source embedding: the spec
clamps a negative elapsed to 0 and stores `last_update = now` on both paths. -/
def consume_claimed (cfg : TenantConfig) (b : BucketState) (amount : ℚ) (now : ℚ) :
    Bool × BucketState :=
  let elapsed := max 0 (now - b.last_update)
  let refilled := min ((cfg.burst_cap : ℚ)) (b.tokens + elapsed * cfg.rate_limit)
  if amount ≤ refilled then (true, ⟨refilled - amount, now⟩)
  else (false, ⟨refilled, now⟩)

/-- The in-memory state of a `TenantManager`: `_configs` and `_buckets`. -/
structure ManagerState where
  configs : String → Option TenantConfig
  buckets : String → Option BucketState

/-- A fresh `TenantManager()`: empty registry, empty buckets. -/
def init_manager : ManagerState := ⟨fun _ => none, fun _ => none⟩

/-- `TenantManager.register_tenant` (src/tenant_manager.py lines 29-35):
unconditionally overwrites the config and re-initialises the bucket to full
capacity with the current clock reading. -/
def register_tenant (s : ManagerState) (cfg : TenantConfig) (now : ℚ) : ManagerState where
  configs := fun tid => if tid = cfg.tenant_id then some cfg else s.configs tid
  buckets := fun tid =>
    if tid = cfg.tenant_id then some ⟨(cfg.burst_cap : ℚ), now⟩ else s.buckets tid

/-- `TenantManager.consume` at the manager level.  An unregistered tenant
raises `ValueError` without mutating state, modelled as `(false, s)` with the
state unchanged. -/
def consume_mgr (s : ManagerState) (tid : String) (amount : ℚ) (now now₂ : ℚ) :
    Bool × ManagerState :=
  match s.configs tid, s.buckets tid with
  | some cfg, some b =>
      let r := consume cfg b amount now now₂
      (r.1, { s with buckets := fun t => if t = tid then some r.2 else s.buckets t })
  | _, _ => (false, s)

/-- `TenantManager.get_tenant_status` (state effect only): refills the bucket
of a registered tenant; an unknown tenant raises without mutation. -/
def get_tenant_status (s : ManagerState) (tid : String) (now : ℚ) : ManagerState :=
  match s.configs tid, s.buckets tid with
  | some cfg, some b =>
      { s with buckets := fun t => if t = tid then some (refill_bucket cfg b now).2
                                   else s.buckets t }
  | _, _ => s

/-- Result type of the `POST /tenants/register` endpoint in `src/server.py`
(lines 202-209): it wraps `register_tenant` and reports success. -/
inductive RegisterResult where
  | success
  | alreadyExists
deriving DecidableEq, Repr

/-- The `register_tenant` endpoint of `src/server.py` lines 202-209: calls
`TenantManager.register_tenant` (which never raises on a duplicate) and
returns the success status unconditionally. -/
def register_tenant_api (s : ManagerState) (cfg : TenantConfig) (now : ℚ) :
    RegisterResult × ManagerState :=
  (RegisterResult.success, register_tenant s cfg now)

/-- `cfg0` and friends: small concrete configurations used by witnesses. -/
def cfg0 : TenantConfig := ⟨"t", 1, 10⟩

/-- C1 claimed that a negative elapsed is clamped to 0 and that `last_update`
is set to `now` on the accept path; the source does neither.  At
`tokens = 10`, `last_update = 5`, `now = 0`, `now₂ = 1`, `amount = 3` the
source yields bucket `(2, 1)` while the claimed algorithm yields `(7, 0)`. -/
theorem C1_consume_clamp_counterexample :
    (consume cfg0 ⟨10, 5⟩ 3 0 1).2 = ⟨2, 1⟩ ∧
    (consume_claimed cfg0 ⟨10, 5⟩ 3 0).2 = ⟨7, 0⟩ ∧
    (⟨2, 1⟩ : BucketState) ≠ ⟨7, 0⟩ := by
  refine ⟨?_, ?_, by decide⟩ <;>
    · simp only [consume, consume_claimed, refill_bucket, cfg0]
      norm_num [min_def]

/-- C1 (amended): `consume` for a registered tenant follows the token-bucket
algorithm with `elapsed = now − last_update` taken raw (no clamping),
`refilled = min(burst_cap, tokens + elapsed × rate_limit)`, acceptance iff
`refilled ≥ amount`; on accept `tokens = refilled − amount` and `last_update`
is a second clock reading `now₂`, on reject `tokens = refilled` and
`last_update = now`. -/
theorem C1_consume_follows_token_bucket (s : ManagerState) (tid : String)
    (cfg : TenantConfig) (b : BucketState) (amount now now₂ : ℚ)
    (hc : s.configs tid = some cfg) (hb : s.buckets tid = some b) :
    ((consume_mgr s tid amount now now₂).1 = true ↔
      amount ≤ min ((cfg.burst_cap : ℚ)) (b.tokens + (now - b.last_update) * cfg.rate_limit)) ∧
    (consume_mgr s tid amount now now₂).2.buckets tid =
      some (if amount ≤ min ((cfg.burst_cap : ℚ))
                    (b.tokens + (now - b.last_update) * cfg.rate_limit) then
              ⟨min ((cfg.burst_cap : ℚ)) (b.tokens + (now - b.last_update) * cfg.rate_limit)
                 - amount, now₂⟩
            else
              ⟨min ((cfg.burst_cap : ℚ)) (b.tokens + (now - b.last_update) * cfg.rate_limit),
                 now⟩) := by
  by_cases hA : amount ≤ min ((cfg.burst_cap : ℚ))
      (b.tokens + (now - b.last_update) * cfg.rate_limit) <;>
    simp [consume_mgr, hc, hb, consume, refill_bucket, hA]

/-- C1 witness: a registered tenant with a full bucket accepts a request of 3
tokens one second after registration. -/
theorem C1_consume_witness :
    ((consume_mgr (register_tenant init_manager cfg0 0) "t" 3 1 1).1 = true ↔
      (3 : ℚ) ≤ min (((10 : ℕ) : ℚ)) (10 + (1 - 0) * 1)) ∧
    (consume_mgr (register_tenant init_manager cfg0 0) "t" 3 1 1).2.buckets "t" =
      some (if (3 : ℚ) ≤ min (((10 : ℕ) : ℚ)) (10 + (1 - 0) * 1) then
              ⟨min (((10 : ℕ) : ℚ)) (10 + (1 - 0) * 1) - 3, 1⟩
            else ⟨min (((10 : ℕ) : ℚ)) (10 + (1 - 0) * 1), 1⟩) :=
  C1_consume_follows_token_bucket (register_tenant init_manager cfg0 0) "t"
    cfg0 ⟨10, 0⟩ 3 1 1 (by decide) (by decide)

/-- C9 claimed `register_tenant` reports `AlreadyExists` on a duplicate id and
leaves the existing configuration unchanged; the endpoint in `src/server.py`
always reports success and `TenantManager.register_tenant` overwrites the
stored config. -/
theorem C9_register_counterexample :
    (register_tenant_api (register_tenant init_manager ⟨"t", 1, 10⟩ 0) ⟨"t", 2, 20⟩ 1).1 =
      RegisterResult.success ∧
    (register_tenant_api (register_tenant init_manager ⟨"t", 1, 10⟩ 0) ⟨"t", 2, 20⟩ 1).1 ≠
      RegisterResult.alreadyExists ∧
    (register_tenant_api (register_tenant init_manager ⟨"t", 1, 10⟩ 0) ⟨"t", 2, 20⟩ 1).2.configs
      "t" = some ⟨"t", 2, 20⟩ ∧
    (⟨"t", 2, 20⟩ : TenantConfig) ≠ ⟨"t", 1, 10⟩ := by
  refine ⟨by decide, by decide, ?_, by decide⟩
  decide

/-- C9 (amended): `register_tenant` returns success for every tenant_id,
registered or not; for an already-registered id it overwrites the stored
configuration with the new one (configurations are not immutable across
re-registration). -/
theorem C9_register_always_succeeds (s : ManagerState) (cfg : TenantConfig) (now : ℚ) :
    (register_tenant_api s cfg now).1 = RegisterResult.success ∧
    (register_tenant_api s cfg now).2.configs cfg.tenant_id = some cfg := by
  constructor
  · rfl
  · simp [register_tenant_api, register_tenant]

/-- C10: re-registering an already registered tenant replaces the stored
config and resets the bucket to `(burst_cap of the new config, now)`,
refilling the token bucket to full capacity. -/
theorem C10_reregister_resets_bucket (s : ManagerState) (cfg old : TenantConfig) (now : ℚ)
    (_already : s.configs cfg.tenant_id = some old) :
    (register_tenant s cfg now).configs cfg.tenant_id = some cfg ∧
    (register_tenant s cfg now).buckets cfg.tenant_id =
      some ⟨(cfg.burst_cap : ℚ), now⟩ := by
  simp [register_tenant]

/-- C10 witness: re-registering tenant `t` with a larger config at time 5
stores the new config and a full bucket stamped 5. -/
theorem C10_reregister_witness :
    (register_tenant (register_tenant init_manager ⟨"t", 1, 10⟩ 0) ⟨"t", 2, 20⟩ 5).configs
      "t" = some ⟨"t", 2, 20⟩ ∧
    (register_tenant (register_tenant init_manager ⟨"t", 1, 10⟩ 0) ⟨"t", 2, 20⟩ 5).buckets
      "t" = some ⟨((20 : ℕ) : ℚ), 5⟩ :=
  C10_reregister_resets_bucket (register_tenant init_manager ⟨"t", 1, 10⟩ 0)
    ⟨"t", 2, 20⟩ ⟨"t", 1, 10⟩ 5 (by decide)

/-- The three state-mutating operations of `TenantManager` reachable from the
server endpoints, each carrying the clock reading(s) `time.time()` returns
during the call (`consume` reads twice: in `_refill_bucket` and on accept). -/
inductive MgrOp where
  | register (cfg : TenantConfig) (now : ℚ)
  | tryConsume (tid : String) (amount : ℚ) (now now₂ : ℚ)
  | status (tid : String) (now : ℚ)

/-- The last clock reading an operation takes. -/
def op_end : MgrOp → ℚ
  | .register _ now => now
  | .tryConsume _ _ _ now₂ => now₂
  | .status _ now => now

/-- Validity of one operation started no earlier than `t`: clock readings are
non-decreasing, and pydantic-validated inputs (`rate_limit > 0`,
`burst_cap > 0` on `TenantConfig`, `tokens_requested > 0` on `Request`). -/
def valid_op (t : ℚ) : MgrOp → Prop
  | .register cfg now => t ≤ now ∧ 0 < cfg.rate_limit ∧ 0 < cfg.burst_cap
  | .tryConsume _ amount now now₂ => t ≤ now ∧ now ≤ now₂ ∧ 0 < amount
  | .status _ now => t ≤ now

/-- A chronological sequence of valid operations starting no earlier than `t`. -/
def chrono (t : ℚ) : List MgrOp → Prop
  | [] => True
  | o :: os => valid_op t o ∧ chrono (op_end o) os

/-- Effect of one operation on the manager state. -/
def run_op (s : ManagerState) : MgrOp → ManagerState
  | .register cfg now => register_tenant s cfg now
  | .tryConsume tid amount now now₂ => (consume_mgr s tid amount now now₂).2
  | .status tid now => get_tenant_status s tid now

/-- Effect of a sequence of operations. -/
def run_ops (s : ManagerState) (ops : List MgrOp) : ManagerState :=
  ops.foldl run_op s

/-- Invariant carried through any chronological run: every registered bucket
holds between 0 and `burst_cap` tokens, its `last_update` is no later than
the current instant, and its config has a non-negative rate. -/
def mgr_inv (s : ManagerState) (t : ℚ) : Prop :=
  ∀ tid cfg b, s.configs tid = some cfg → s.buckets tid = some b →
    (0 ≤ b.tokens ∧ b.tokens ≤ (cfg.burst_cap : ℚ)) ∧
      b.last_update ≤ t ∧ 0 ≤ cfg.rate_limit

theorem refill_bounds (cfg : TenantConfig) (b : BucketState) (now : ℚ)
    (h0 : 0 ≤ b.tokens) (hrate : 0 ≤ cfg.rate_limit) (hlast : b.last_update ≤ now) :
    0 ≤ (refill_bucket cfg b now).1 ∧ (refill_bucket cfg b now).1 ≤ (cfg.burst_cap : ℚ) := by
  constructor
  · refine le_min (Nat.cast_nonneg _) ?_
    have hm : 0 ≤ (now - b.last_update) * cfg.rate_limit :=
      mul_nonneg (by linarith) hrate
    linarith
  · exact min_le_left _ _

theorem consume_accept_snd (cfg : TenantConfig) (b : BucketState) (amount now now₂ : ℚ)
    (hA : amount ≤ (refill_bucket cfg b now).1) :
    (consume cfg b amount now now₂).2 = ⟨(refill_bucket cfg b now).1 - amount, now₂⟩ := by
  simp only [consume, if_pos hA]

theorem consume_reject_snd (cfg : TenantConfig) (b : BucketState) (amount now now₂ : ℚ)
    (hA : ¬ amount ≤ (refill_bucket cfg b now).1) :
    (consume cfg b amount now now₂).2 = ⟨(refill_bucket cfg b now).1, now⟩ := by
  simp only [consume, if_neg hA]
  rfl

theorem refill_bucket_snd (cfg : TenantConfig) (b : BucketState) (now : ℚ) :
    (refill_bucket cfg b now).2 = ⟨(refill_bucket cfg b now).1, now⟩ := rfl

theorem mgr_inv_step (s : ManagerState) (t : ℚ) (o : MgrOp)
    (hI : mgr_inv s t) (hv : valid_op t o) : mgr_inv (run_op s o) (op_end o) := by
  cases o with
  | register cfg now =>
      simp only [run_op, op_end]
      obtain ⟨ht, hrate, hcap⟩ := hv
      intro tid cfg' b' hc' hb'
      simp only [register_tenant] at hc' hb'
      by_cases he : tid = cfg.tenant_id
      · rw [if_pos he] at hc' hb'
        obtain rfl : cfg = cfg' := by simpa using hc'
        obtain rfl : b' = (⟨(cfg.burst_cap : ℚ), now⟩ : BucketState) := by
          simpa using hb'.symm
        exact ⟨⟨Nat.cast_nonneg _, le_refl _⟩, le_refl _, le_of_lt hrate⟩
      · rw [if_neg he] at hc' hb'
        obtain ⟨hbd, hlast, hr⟩ := hI tid cfg' b' hc' hb'
        exact ⟨hbd, le_trans hlast ht, hr⟩
  | tryConsume tid amount now now₂ =>
      simp only [run_op, op_end]
      obtain ⟨ht, hnn, ham⟩ := hv
      intro tid' cfg' b' hc' hb'
      simp only [consume_mgr] at hc' hb'
      rcases hcs : s.configs tid with _ | cfg <;> rcases hbs : s.buckets tid with _ | b <;>
        simp only [hcs, hbs] at hc' hb'
      · obtain ⟨hbd, hlast, hr⟩ := hI tid' cfg' b' hc' hb'
        exact ⟨hbd, by linarith, hr⟩
      · obtain ⟨hbd, hlast, hr⟩ := hI tid' cfg' b' hc' hb'
        exact ⟨hbd, by linarith, hr⟩
      · obtain ⟨hbd, hlast, hr⟩ := hI tid' cfg' b' hc' hb'
        exact ⟨hbd, by linarith, hr⟩
      · by_cases he : tid' = tid
        · subst he
          rw [if_pos rfl] at hb'
          obtain ⟨⟨h0, hcapb⟩, hlast, hr⟩ := hI tid' cfg b hcs hbs
          obtain rfl : cfg = cfg' := by rw [hcs] at hc'; simpa using hc'
          have hrb := refill_bounds cfg b now h0 hr (by linarith)
          by_cases hA : amount ≤ (refill_bucket cfg b now).1
          · rw [consume_accept_snd cfg b amount now now₂ hA] at hb'
            obtain rfl : b' = (⟨(refill_bucket cfg b now).1 - amount, now₂⟩ : BucketState) := by
              simpa using hb'.symm
            refine ⟨⟨?_, ?_⟩, le_refl _, hr⟩
            · show (0 : ℚ) ≤ (refill_bucket cfg b now).1 - amount
              linarith
            · show (refill_bucket cfg b now).1 - amount ≤ ((cfg.burst_cap : ℚ))
              linarith [hrb.2]
          · rw [consume_reject_snd cfg b amount now now₂ hA] at hb'
            obtain rfl : b' = (⟨(refill_bucket cfg b now).1, now⟩ : BucketState) := by
              simpa using hb'.symm
            exact ⟨⟨hrb.1, hrb.2⟩, hnn, hr⟩
        · rw [if_neg he] at hb'
          obtain ⟨hbd, hlast, hr⟩ := hI tid' cfg' b' hc' hb'
          exact ⟨hbd, by linarith, hr⟩
  | status tid now =>
      simp only [run_op, op_end]
      have ht : t ≤ now := hv
      intro tid' cfg' b' hc' hb'
      simp only [get_tenant_status] at hc' hb'
      rcases hcs : s.configs tid with _ | cfg <;> rcases hbs : s.buckets tid with _ | b <;>
        simp only [hcs, hbs] at hc' hb'
      · obtain ⟨hbd, hlast, hr⟩ := hI tid' cfg' b' hc' hb'
        exact ⟨hbd, by linarith, hr⟩
      · obtain ⟨hbd, hlast, hr⟩ := hI tid' cfg' b' hc' hb'
        exact ⟨hbd, by linarith, hr⟩
      · obtain ⟨hbd, hlast, hr⟩ := hI tid' cfg' b' hc' hb'
        exact ⟨hbd, by linarith, hr⟩
      · by_cases he : tid' = tid
        · subst he
          rw [if_pos rfl] at hb'
          obtain ⟨⟨h0, hcapb⟩, hlast, hr⟩ := hI tid' cfg b hcs hbs
          obtain rfl : cfg = cfg' := by rw [hcs] at hc'; simpa using hc'
          have hrb := refill_bounds cfg b now h0 hr (by linarith)
          rw [refill_bucket_snd] at hb'
          obtain rfl : b' = (⟨(refill_bucket cfg b now).1, now⟩ : BucketState) := by
            simpa using hb'.symm
          exact ⟨⟨hrb.1, hrb.2⟩, le_refl _, hr⟩
        · rw [if_neg he] at hb'
          obtain ⟨hbd, hlast, hr⟩ := hI tid' cfg' b' hc' hb'
          exact ⟨hbd, by linarith, hr⟩

theorem mgr_inv_run (ops : List MgrOp) : ∀ (s : ManagerState) (t : ℚ),
    mgr_inv s t → chrono t ops →
    ∃ t', mgr_inv (run_ops s ops) t' := by
  induction ops with
  | nil => exact fun s t hI _ => ⟨t, hI⟩
  | cons o os ih =>
      intro s t hI hc
      obtain ⟨hv, hcs⟩ := hc
      exact ih (run_op s o) (op_end o) (mgr_inv_step s t o hI hv) hcs

theorem chrono_of_append (p : List MgrOp) : ∀ (rest : List MgrOp) (t : ℚ),
    chrono t (p ++ rest) → chrono t p := by
  induction p with
  | nil => intro _ _ _; trivial
  | cons o os ih =>
      intro rest t hc
      obtain ⟨hv, hcs⟩ := hc
      exact ⟨hv, ih rest (op_end o) hcs⟩

/-- C4: starting from a fresh `TenantManager`, after any prefix of any
chronological (non-decreasing clock readings, pydantic-valid inputs) sequence
of `register_tenant` / `consume` / `get_tenant_status` operations, every
registered tenant's bucket satisfies `0 ≤ tokens ≤ burst_cap` of its
registered config. -/
theorem C4_bucket_within_bounds (t0 : ℚ) (p rest : List MgrOp)
    (hc : chrono t0 (p ++ rest)) (tid : String) (cfg : TenantConfig) (b : BucketState)
    (hcfg : (run_ops init_manager p).configs tid = some cfg)
    (hb : (run_ops init_manager p).buckets tid = some b) :
    0 ≤ b.tokens ∧ b.tokens ≤ (cfg.burst_cap : ℚ) := by
  have hinit : mgr_inv init_manager t0 := by
    intro tid' cfg' b' hc' _
    simp [init_manager] at hc'
  obtain ⟨t', hI⟩ := mgr_inv_run p init_manager t0 hinit (chrono_of_append p rest t0 hc)
  exact (hI tid cfg b hcfg hb).1

/-- C4 witness: registering tenant `t` at time 0 then consuming 3 tokens at
time 1 leaves the bucket at 7 tokens, inside `[0, 10]`. -/
theorem C4_bucket_witness :
    0 ≤ (⟨7, 1⟩ : BucketState).tokens ∧
      (⟨7, 1⟩ : BucketState).tokens ≤ ((cfg0.burst_cap : ℕ) : ℚ) :=
  C4_bucket_within_bounds 0 [.register cfg0 0, .tryConsume "t" 3 1 1] []
    (by refine ⟨?_, ?_, ?_⟩ <;> norm_num [valid_op, op_end, chrono, cfg0])
    "t" cfg0 ⟨7, 1⟩ (by decide)
    (by simp only [run_ops, List.foldl, run_op, register_tenant, init_manager, consume_mgr,
          consume, refill_bucket, cfg0]
        norm_num [min_def])

/-- `N` back-to-back `consume` calls of the same `amount` with no time
elapsing (all clock readings equal `now`), returning the final bucket and the
number of accepted calls; this is the instantaneous-burst scenario of the
spec's round-trip laws over `TenantManager.consume`. -/
def consume_n (cfg : TenantConfig) (b : BucketState) (amount now : ℚ) : ℕ → BucketState × ℕ
  | 0 => (b, 0)
  | Nat.succ n =>
      let r := consume cfg b amount now now
      let s := consume_n cfg r.2 amount now n
      (s.1, (if r.1 then 1 else 0) + s.2)

theorem consume_n_count (cfg : TenantConfig) (now : ℚ) (p : ℕ) (hp : 0 < p) :
    ∀ (n q : ℕ), q ≤ cfg.burst_cap →
      (consume_n cfg ⟨(q : ℚ), now⟩ (p : ℚ) now n).2 = min n (q / p) := by
  intro n
  induction n with
  | zero => intro q _; simp [consume_n]
  | succ n ih =>
      intro q hq
      have hrefill : (refill_bucket cfg ⟨(q : ℚ), now⟩ now).1 = (q : ℚ) := by
        simp only [refill_bucket]
        rw [sub_self, zero_mul, add_zero]
        exact min_eq_right (by exact_mod_cast hq)
      by_cases hpq : p ≤ q
      · have hacc : ((p : ℚ)) ≤ (refill_bucket cfg ⟨(q : ℚ), now⟩ now).1 := by
          rw [hrefill]; exact_mod_cast hpq
        have hsub : (q : ℚ) - (p : ℚ) = ((q - p : ℕ) : ℚ) := by
          rw [Nat.cast_sub hpq]
        have hstep : consume cfg ⟨(q : ℚ), now⟩ (p : ℚ) now now =
            (true, ⟨((q - p : ℕ) : ℚ), now⟩) := by
          refine Prod.ext_iff.mpr ⟨?_, ?_⟩
          · simp only [consume, if_pos hacc]
          · rw [consume_accept_snd cfg ⟨(q : ℚ), now⟩ (p : ℚ) now now hacc,
              hrefill, hsub]
        have ihq := ih (q - p) (le_trans (Nat.sub_le _ _) hq)
        simp only [consume_n, hstep, if_true, ihq]
        rw [Nat.div_eq_sub_div hp hpq]
        omega
      · have hrej : ¬ ((p : ℚ)) ≤ (refill_bucket cfg ⟨(q : ℚ), now⟩ now).1 := by
          rw [hrefill]
          exact fun hle => hpq (by exact_mod_cast hle)
        have hstep : consume cfg ⟨(q : ℚ), now⟩ (p : ℚ) now now =
            (false, ⟨(q : ℚ), now⟩) := by
          refine Prod.ext_iff.mpr ⟨?_, ?_⟩
          · simp only [consume, if_neg hrej]
          · rw [consume_reject_snd cfg ⟨(q : ℚ), now⟩ (p : ℚ) now now hrej, hrefill]
        have hq0 : q / p = 0 := Nat.div_eq_of_lt (by omega)
        have ihq := ih q hq
        simp only [consume_n, hstep, Bool.false_eq_true, if_false, ihq, hq0]
        omega

/-- C5: from a freshly registered (full) bucket, `N` instantaneous `consume`
calls of the same positive amount `p` all succeed when `N × p ≤ burst_cap`,
and exactly `⌊burst_cap / p⌋` of them succeed when `N × p > burst_cap`. -/
theorem C5_instantaneous_burst (cfg : TenantConfig) (t : ℚ) (p N : ℕ) (hp : 0 < p) :
    (N * p ≤ cfg.burst_cap →
      (consume_n cfg ⟨(cfg.burst_cap : ℚ), t⟩ (p : ℚ) t N).2 = N) ∧
    (cfg.burst_cap < N * p →
      (consume_n cfg ⟨(cfg.burst_cap : ℚ), t⟩ (p : ℚ) t N).2 = cfg.burst_cap / p) := by
  have h := consume_n_count cfg t p hp N cfg.burst_cap le_rfl
  constructor
  · intro hN
    rw [h]
    exact min_eq_left ((Nat.le_div_iff_mul_le hp).2 hN)
  · intro hN
    rw [h]
    exact min_eq_right (le_of_lt ((Nat.div_lt_iff_lt_mul hp).2 (by omega)))

/-- C5 witness: burst_cap 10, amount 3, four instantaneous calls: exactly
`⌊10 / 3⌋ = 3` are accepted. -/
theorem C5_instantaneous_burst_witness :
    (consume_n cfg0 ⟨(cfg0.burst_cap : ℚ), 0⟩ ((3 : ℕ) : ℚ) 0 4).2 = 3 :=
  (C5_instantaneous_burst cfg0 0 3 4 (by decide)).2 (by decide)

/-- `Request` from `src/models.py`: pydantic validates `tokens_requested > 0`,
`output_tokens_expected > 0`, `priority_bid ≥ 0`; `arrival_time` is a
timestamp modelled as a rational. -/
structure RequestData where
  request_id : String
  tenant_id : String
  prompt : String
  tokens_requested : ℕ
  output_tokens_expected : ℕ
  priority_bid : ℕ
  arrival_time : ℚ
deriving DecidableEq, Repr

/-- `Request.effective_priority` (src/models.py): currently just the bid. -/
def effective_priority (r : RequestData) : ℚ := (r.priority_bid : ℚ)

/-- `HeapEntry` from `src/models.py` lines 32-44. -/
structure HeapEntry where
  neg_effective_priority : ℚ
  arrival_time : ℚ
  request : RequestData
deriving DecidableEq, Repr

/-- `HeapEntry.__lt__` (src/models.py lines 40-43): compare negated
priorities first, break ties by arrival time. -/
def entry_lt (a b : HeapEntry) : Bool :=
  if a.neg_effective_priority ≠ b.neg_effective_priority then
    decide (a.neg_effective_priority < b.neg_effective_priority)
  else decide (a.arrival_time < b.arrival_time)

/-- `make_heap_entry` (src/models.py lines 47-53): snapshot the negated
effective priority and the arrival timestamp. -/
def make_heap_entry (r : RequestData) : HeapEntry :=
  ⟨-(effective_priority r), r.arrival_time, r⟩

/-- The lexicographic key `(−priority, arrival)` of an entry. -/
def entry_key (e : HeapEntry) : Lex (ℚ × ℚ) :=
  toLex (e.neg_effective_priority, e.arrival_time)

theorem entry_lt_iff (a b : HeapEntry) :
    entry_lt a b = true ↔ entry_key a < entry_key b := by
  rw [entry_lt, entry_key, entry_key, Prod.Lex.lt_iff]
  by_cases h : a.neg_effective_priority = b.neg_effective_priority <;> simp [h]

/-- Modelled from the spec: the drain order of Python's `heapq` (standard
library, not part of this repository's sources).  `heapq.heappop` removes and
returns a least element of the heap under `HeapEntry.__lt__`; `select_min`
extracts the first such least element and returns it with the remaining
entries. -/
def select_min (e : HeapEntry) : List HeapEntry → HeapEntry × List HeapEntry
  | [] => (e, [])
  | x :: xs =>
      if entry_lt x e then
        ((select_min x xs).1, e :: (select_min x xs).2)
      else
        ((select_min e xs).1, x :: (select_min e xs).2)

theorem select_min_length (l : List HeapEntry) : ∀ e, (select_min e l).2.length = l.length := by
  induction l with
  | nil => intro e; rfl
  | cons x xs ih =>
      intro e
      by_cases h : entry_lt x e = true
      · simp [select_min, h, ih x]
      · simp [select_min, h, ih e]

theorem select_min_perm (l : List HeapEntry) :
    ∀ e, ((select_min e l).1 :: (select_min e l).2).Perm (e :: l) := by
  induction l with
  | nil => intro e; rfl
  | cons x xs ih =>
      intro e
      by_cases h : entry_lt x e = true
      · rw [select_min, if_pos h]
        dsimp only
        exact List.Perm.trans (List.Perm.swap e _ _) (List.Perm.cons e (ih x))
      · rw [select_min, if_neg h]
        dsimp only
        exact ((List.Perm.swap x _ _).trans (List.Perm.cons x (ih e))).trans
          (List.Perm.swap e x xs)

theorem select_min_key_le (l : List HeapEntry) :
    ∀ e, ∀ y ∈ e :: l, entry_key (select_min e l).1 ≤ entry_key y := by
  induction l with
  | nil =>
      intro e y hy
      rw [List.mem_singleton] at hy
      rw [hy]
      exact le_refl _
  | cons x xs ih =>
      intro e y hy
      by_cases h : entry_lt x e = true
      · have hlt : entry_key x < entry_key e := (entry_lt_iff x e).mp h
        rw [select_min, if_pos h]
        dsimp only
        rcases List.mem_cons.mp hy with hye | hy2
        · rw [hye]
          exact le_trans (ih x x (List.mem_cons_self x xs)) (le_of_lt hlt)
        · exact ih x y hy2
      · have hle : entry_key e ≤ entry_key x := by
          have hnot := (entry_lt_iff x e).not.mp (by simp [h])
          exact le_of_not_lt hnot
        rw [select_min, if_neg h]
        dsimp only
        rcases List.mem_cons.mp hy with hye | hy2
        · rw [hye]
          exact ih e e (List.mem_cons_self e xs)
        · rcases List.mem_cons.mp hy2 with hyx | hy3
          · rw [hyx]
            exact le_trans (ih e e (List.mem_cons_self e xs)) hle
          · exact ih e y (List.mem_cons_of_mem e hy3)

theorem select_min_not_beaten (l : List HeapEntry) (e : HeapEntry)
    (y : HeapEntry) (hy : y ∈ e :: l) : entry_lt y (select_min e l).1 = false := by
  rw [← Bool.not_eq_true, entry_lt_iff]
  exact not_lt.mpr (select_min_key_le l e y hy)

/-- Repeatedly `heapq.heappop` until the queue is empty; the sequence of
popped entries, in pop order. -/
def pop_all : List HeapEntry → List HeapEntry
  | [] => []
  | e :: es => (select_min e es).1 :: pop_all (select_min e es).2
termination_by l => l.length
decreasing_by simp only [select_min_length, List.length_cons]; omega

theorem pop_all_perm (q : List HeapEntry) : (pop_all q).Perm q := by
  induction q using pop_all.induct with
  | case1 => rw [pop_all]
  | case2 e es ih =>
      rw [pop_all]
      exact List.Perm.trans (List.Perm.cons _ ih) (select_min_perm es e)

theorem pop_all_pairwise (q : List HeapEntry) :
    (pop_all q).Pairwise (fun a b => entry_lt b a = false) := by
  induction q using pop_all.induct with
  | case1 => rw [pop_all]; exact List.Pairwise.nil
  | case2 e es ih =>
      rw [pop_all]
      refine List.Pairwise.cons ?_ ih
      intro b hb
      have hb2 : b ∈ (select_min e es).2 :=
        (pop_all_perm (select_min e es).2).mem_iff.mp hb
      have hbq : b ∈ e :: es :=
        (select_min_perm es e).mem_iff.mp (List.mem_cons_of_mem _ hb2)
      exact select_min_not_beaten es e b hbq

/-- C2: for entries built by `make_heap_entry`, the drain order of the
priority queue respects `HeapEntry.__lt__`: the popped sequence is a
permutation of the queue in which no later entry compares strictly below an
earlier one — equivalently, whenever
`(−E1.priority_bid, E1.arrival_time) < (−E2.priority_bid, E2.arrival_time)`
lexicographically, E1 is popped before E2 — and in particular entries with
equal `priority_bid` come out in non-decreasing `arrival_time` order. -/
theorem C2_pop_order (q : List HeapEntry)
    (hw : ∀ e ∈ q, e = make_heap_entry e.request) :
    (pop_all q).Perm q ∧
    (pop_all q).Pairwise (fun a b => entry_lt b a = false) ∧
    (pop_all q).Pairwise (fun a b =>
      a.request.priority_bid = b.request.priority_bid →
        a.arrival_time ≤ b.arrival_time) := by
  refine ⟨pop_all_perm q, pop_all_pairwise q, ?_⟩
  refine (pop_all_pairwise q).imp_of_mem ?_
  intro a b ha hb hlt hbid
  have ha2 : a ∈ q := (pop_all_perm q).mem_iff.mp ha
  have hb2 : b ∈ q := (pop_all_perm q).mem_iff.mp hb
  have hna : a.neg_effective_priority = -(effective_priority a.request) := by
    conv_lhs => rw [hw a ha2]
    rfl
  have hnb : b.neg_effective_priority = -(effective_priority b.request) := by
    conv_lhs => rw [hw b hb2]
    rfl
  have hne : b.neg_effective_priority = a.neg_effective_priority := by
    rw [hna, hnb, effective_priority, effective_priority, hbid]
  rw [entry_lt, if_neg (by simp [hne])] at hlt
  have := of_decide_eq_false hlt
  exact le_of_not_lt this

/-- Two concrete requests for the C2 witness: a high-bid early request and a
low-bid later one. -/
def c2_req_hi : RequestData := ⟨"r1", "a", "hello", 5, 5, 2, 0⟩

def c2_req_lo : RequestData := ⟨"r2", "b", "world", 5, 5, 1, 1⟩

/-- C2 witness: draining a two-entry queue built by `make_heap_entry`. -/
theorem C2_pop_order_witness :
    (pop_all [make_heap_entry c2_req_hi, make_heap_entry c2_req_lo]).Perm
      [make_heap_entry c2_req_hi, make_heap_entry c2_req_lo] ∧
    (pop_all [make_heap_entry c2_req_hi, make_heap_entry c2_req_lo]).Pairwise
      (fun a b => entry_lt b a = false) ∧
    (pop_all [make_heap_entry c2_req_hi, make_heap_entry c2_req_lo]).Pairwise
      (fun a b => a.request.priority_bid = b.request.priority_bid →
        a.arrival_time ≤ b.arrival_time) :=
  C2_pop_order [make_heap_entry c2_req_hi, make_heap_entry c2_req_lo] (by decide)

/-- `MAX_BATCH = 16` inside `worker` (src/server.py line 41). -/
def MAX_BATCH_SIZE : ℕ := 16

/-- The drain loop of `worker` (src/server.py lines 61-64): under the queue
mutex, pop entries and append their requests to the batch while the batch is
below `MAX_BATCH` and the queue is nonempty. -/
def drain_batch : List RequestData → List HeapEntry → List RequestData × List HeapEntry
  | batch, [] => (batch, [])
  | batch, e :: es =>
      if batch.length < MAX_BATCH_SIZE then
        drain_batch (batch ++ [(select_min e es).1.request]) (select_min e es).2
      else (batch, e :: es)
termination_by _ q => q.length
decreasing_by simp only [select_min_length, List.length_cons]; omega

/-- One iteration of the `worker` loop (src/server.py lines 45-75) from the
pop of the lead request onward: the queue is nonempty at lead-pop time
(entries `e :: es`), the lead is popped and seeds the batch, the batching
window elapses (during which the queue may change arbitrarily to `q₂`), and
then the drain loop runs. -/
def worker_batch (e : HeapEntry) (es q₂ : List HeapEntry) : List RequestData :=
  (drain_batch [(select_min e es).1.request] q₂).1

theorem drain_batch_length (q : List HeapEntry) : ∀ (batch : List RequestData),
    batch.length ≤ (drain_batch batch q).1.length ∧
    (drain_batch batch q).1.length ≤ max batch.length MAX_BATCH_SIZE := by
  induction q using pop_all.induct with
  | case1 =>
      intro batch
      rw [drain_batch]
      exact ⟨le_refl _, le_max_left _ _⟩
  | case2 e es ih =>
      intro batch
      rw [drain_batch]
      by_cases h : batch.length < MAX_BATCH_SIZE
      · rw [if_pos h]
        obtain ⟨h1, h2⟩ := ih (batch ++ [(select_min e es).1.request])
        rw [List.length_append, List.length_singleton] at h1 h2
        constructor
        · omega
        · have : max (batch.length + 1) MAX_BATCH_SIZE ≤ max batch.length MAX_BATCH_SIZE := by
            simp only [MAX_BATCH_SIZE] at h ⊢
            omega
          omega
      · rw [if_neg h]
        exact ⟨le_refl _, le_max_left _ _⟩

theorem drain_batch_extends (q : List HeapEntry) : ∀ (batch : List RequestData),
    ∃ t, (drain_batch batch q).1 = batch ++ t := by
  induction q using pop_all.induct with
  | case1 =>
      intro batch
      rw [drain_batch]
      exact ⟨[], (List.append_nil batch).symm⟩
  | case2 e es ih =>
      intro batch
      rw [drain_batch]
      by_cases h : batch.length < MAX_BATCH_SIZE
      · rw [if_pos h]
        obtain ⟨t, ht⟩ := ih (batch ++ [(select_min e es).1.request])
        exact ⟨(select_min e es).1.request :: t, by rw [ht, List.append_assoc]; rfl⟩
      · rw [if_neg h]
        exact ⟨[], (List.append_nil batch).symm⟩

/-- C6: every batch the worker loop assembles contains the lead request (it
is the batch's head) and has between 1 and `MAX_BATCH_SIZE = 16` requests,
whatever the queue held at lead-pop time (`e :: es`, nonempty) and at drain
time (`q₂`). -/
theorem C6_batch_size_bounds (e : HeapEntry) (es q₂ : List HeapEntry) :
    1 ≤ (worker_batch e es q₂).length ∧
    (worker_batch e es q₂).length ≤ MAX_BATCH_SIZE ∧
    (worker_batch e es q₂).head? = some (select_min e es).1.request := by
  obtain ⟨h1, h2⟩ := drain_batch_length q₂ [(select_min e es).1.request]
  obtain ⟨t, ht⟩ := drain_batch_extends q₂ [(select_min e es).1.request]
  rw [List.length_singleton] at h1 h2
  refine ⟨?_, ?_, ?_⟩
  · rw [worker_batch]
    exact h1
  · rw [worker_batch]
    simp only [MAX_BATCH_SIZE] at h2 ⊢
    omega
  · rw [worker_batch, ht]
    rfl

/-- `GPUSimulator.MAX_KV_CACHE` (src/gpu_simulator.py line 20). -/
def MAX_KV_CACHE : ℕ := 32768

/-- The KV-accounting state of `GPUSimulator` (src/gpu_simulator.py). -/
structure GPUState where
  current_kv_cache_tokens : ℤ
  total_batches_processed : ℕ
  total_requests_processed : ℕ
deriving DecidableEq, Repr

/-- `sum(r.tokens_requested for r in requests)` as a Python int. -/
def batch_total_tokens (batch : List RequestData) : ℤ :=
  (batch.map (fun r => (r.tokens_requested : ℤ))).sum

/-- The KV-cache and counter effect of `GPUSimulator.simulate_inference`
(src/gpu_simulator.py lines 88-136): empty batches return unchanged; if
`current + total > MAX_KV_CACHE` the counter is reset to 0 with a warning
(the returned Bool), then `total` is accumulated unconditionally. -/
def simulate_inference (s : GPUState) (batch : List RequestData) : GPUState × Bool :=
  if batch.isEmpty then (s, false)
  else
    let total := batch_total_tokens batch
    let overflow := decide ((MAX_KV_CACHE : ℤ) < s.current_kv_cache_tokens + total)
    let kv₀ := if overflow then 0 else s.current_kv_cache_tokens
    (⟨kv₀ + total, s.total_batches_processed + 1,
      s.total_requests_processed + batch.length⟩, overflow)

/-- The spec's S5 request: `prompt_tokens = 40000 > MAX_KV_CACHE`. -/
def c3_big_req : RequestData := ⟨"r", "a", "big", 40000, 50, 1, 0⟩

/-- C3 claimed `kv_cache_used ≤ MAX_KV_CACHE` holds after every
`simulate_inference` call; a single batch whose total prompt tokens exceed
the ceiling leaves the counter above it (the spec's own S5 scenario:
post-state 40000 > 32768). -/
theorem C3_kv_ceiling_counterexample :
    (simulate_inference ⟨0, 0, 0⟩ [c3_big_req]).1.current_kv_cache_tokens = 40000 ∧
    ¬ (simulate_inference ⟨0, 0, 0⟩ [c3_big_req]).1.current_kv_cache_tokens ≤
        ((MAX_KV_CACHE : ℕ) : ℤ) := by
  constructor <;> decide

/-- C3 (amended): `simulate_inference` on a nonempty batch keeps
`kv_cache_used ≥ 0`, keeps it `≤ MAX_KV_CACHE` whenever the batch total is
`≤ MAX_KV_CACHE`, and when the pre-state counter plus the batch total would
exceed the ceiling it emits a warning and resets before accumulating,
leaving the counter equal to the batch total (possibly above the ceiling);
otherwise no warning and the counter grows by the batch total. -/
theorem simulate_inference_overflow (s : GPUState) (batch : List RequestData)
    (hne : batch.isEmpty = false)
    (hov : ((MAX_KV_CACHE : ℕ) : ℤ) < s.current_kv_cache_tokens + batch_total_tokens batch) :
    simulate_inference s batch =
      (⟨batch_total_tokens batch, s.total_batches_processed + 1,
        s.total_requests_processed + batch.length⟩, true) := by
  simp [simulate_inference, hne, hov]

theorem simulate_inference_fits (s : GPUState) (batch : List RequestData)
    (hne : batch.isEmpty = false)
    (hov : ¬ ((MAX_KV_CACHE : ℕ) : ℤ) < s.current_kv_cache_tokens + batch_total_tokens batch) :
    simulate_inference s batch =
      (⟨s.current_kv_cache_tokens + batch_total_tokens batch, s.total_batches_processed + 1,
        s.total_requests_processed + batch.length⟩, false) := by
  simp [simulate_inference, hne, hov]

theorem C3_kv_accounting (s : GPUState) (batch : List RequestData)
    (h0 : 0 ≤ s.current_kv_cache_tokens) (hne : batch ≠ []) :
    0 ≤ (simulate_inference s batch).1.current_kv_cache_tokens ∧
    (batch_total_tokens batch ≤ ((MAX_KV_CACHE : ℕ) : ℤ) →
      s.current_kv_cache_tokens ≤ ((MAX_KV_CACHE : ℕ) : ℤ) →
      (simulate_inference s batch).1.current_kv_cache_tokens ≤ ((MAX_KV_CACHE : ℕ) : ℤ)) ∧
    (((MAX_KV_CACHE : ℕ) : ℤ) < s.current_kv_cache_tokens + batch_total_tokens batch →
      (simulate_inference s batch).2 = true ∧
      (simulate_inference s batch).1.current_kv_cache_tokens = batch_total_tokens batch) ∧
    (s.current_kv_cache_tokens + batch_total_tokens batch ≤ ((MAX_KV_CACHE : ℕ) : ℤ) →
      (simulate_inference s batch).2 = false ∧
      (simulate_inference s batch).1.current_kv_cache_tokens =
        s.current_kv_cache_tokens + batch_total_tokens batch) := by
  have hbe : batch.isEmpty = false := by
    cases batch with
    | nil => exact absurd rfl hne
    | cons a l => rfl
  have htot : 0 ≤ batch_total_tokens batch := by
    refine List.sum_nonneg ?_
    intro x hx
    obtain ⟨r, _, rfl⟩ := List.mem_map.mp hx
    exact Int.ofNat_nonneg _
  by_cases hov : ((MAX_KV_CACHE : ℕ) : ℤ) < s.current_kv_cache_tokens + batch_total_tokens batch
  · rw [simulate_inference_overflow s batch hbe hov]
    exact ⟨htot, fun hM _ => hM, fun _ => ⟨rfl, rfl⟩,
      fun hc => absurd hc (not_le.mpr hov)⟩
  · rw [simulate_inference_fits s batch hbe hov]
    exact ⟨add_nonneg h0 htot, fun _ _ => le_of_not_lt hov, fun hc => absurd hc hov,
      fun _ => ⟨rfl, rfl⟩⟩

/-- A small request for the C3 witness. -/
def c3_small_req : RequestData := ⟨"r", "a", "small", 100, 50, 1, 0⟩

/-- C3 witness: a 100-token batch on an empty cache stays within bounds. -/
theorem C3_kv_accounting_witness :
    (0 : ℤ) ≤ 0 ∧ ([c3_small_req] ≠ []) ∧
    0 ≤ (simulate_inference ⟨0, 0, 0⟩ [c3_small_req]).1.current_kv_cache_tokens :=
  ⟨le_refl 0, by decide,
    (C3_kv_accounting ⟨0, 0, 0⟩ [c3_small_req] (le_refl 0) (by decide)).1⟩

/-- The inter-arrival intervals of `HomeostaticGovernor.calculate_entropy`
(src/homeostatic_governor.py lines 78-83): consecutive differences, keeping
only pairs where the later timestamp is not below the earlier one. -/
def intervals (ts : List ℚ) : List ℚ :=
  (ts.zip ts.tail).filterMap (fun p => if p.1 ≤ p.2 then some (p.2 - p.1) else none)

/-- Python's `round` applied to an exact value: round half to even. -/
def round_half_even (x : ℚ) : ℤ :=
  let f := ⌊x⌋
  let r := x - (f : ℚ)
  if r < 1 / 2 then f
  else if 1 / 2 < r then f + 1
  else if f % 2 = 0 then f else f + 1

/-- `round(interval, 3)` (src/homeostatic_governor.py line 91): bin an
interval at 1 ms precision. -/
def bucket_1ms (x : ℚ) : ℚ := ((round_half_even (x * 1000) : ℤ) : ℚ) / 1000

/-- `HomeostaticGovernor.calculate_entropy` (src/homeostatic_governor.py
lines 63-108): Shannon entropy in bits of the 1 ms histogram of
inter-arrival intervals; 0 when fewer than 2 arrivals or no usable
intervals. -/
noncomputable def calculate_entropy (ts : List ℚ) : ℝ :=
  if ts.length < 2 then 0
  else if (intervals ts).isEmpty then 0
  else
    -((((intervals ts).map bucket_1ms).dedup.map (fun d =>
        ((((intervals ts).map bucket_1ms).count d : ℝ) / (((intervals ts).length : ℝ))) *
          Real.logb 2
            ((((intervals ts).map bucket_1ms).count d : ℝ) /
              (((intervals ts).length : ℝ))))).sum)

/-- `HomeostaticGovernor` state: the bounded deque of arrivals and the base
window (src/homeostatic_governor.py lines 44-56). -/
structure GovernorState where
  arrival_times : List ℚ
  base_batch_window : ℝ

/-- `HomeostaticGovernor.get_adaptive_batch_window` (src/homeostatic_governor.py
lines 110-127): `base_batch_window × exp(−H / 5.0)`. -/
noncomputable def get_adaptive_batch_window (g : GovernorState) : ℝ :=
  g.base_batch_window * Real.exp (-(calculate_entropy g.arrival_times) / 5)

theorem list_sum_nonpos {l : List ℝ} (h : ∀ x ∈ l, x ≤ 0) : l.sum ≤ 0 := by
  induction l with
  | nil => simp
  | cons a t ih =>
      rw [List.sum_cons]
      have ha := h a (List.mem_cons_self a t)
      have ht := ih (fun x hx => h x (List.mem_cons_of_mem a hx))
      linarith

theorem calculate_entropy_nonneg (ts : List ℚ) : 0 ≤ calculate_entropy ts := by
  rw [calculate_entropy]
  split
  · exact le_refl 0
  split
  · exact le_refl 0
  rename_i hlen hne
  refine neg_nonneg.mpr (list_sum_nonpos ?_)
  intro x hx
  obtain ⟨d, hd, rfl⟩ := List.mem_map.mp hx
  have hdmem : d ∈ (intervals ts).map bucket_1ms := List.mem_dedup.mp hd
  have hcount1 : 1 ≤ ((intervals ts).map bucket_1ms).count d := by
    have := List.count_pos_iff.mpr hdmem
    omega
  have hlenpos : 0 < (intervals ts).length := by
    rw [List.isEmpty_iff] at hne
    exact List.length_pos.mpr hne
  have hcountle : ((intervals ts).map bucket_1ms).count d ≤ (intervals ts).length := by
    have := List.count_le_length d ((intervals ts).map bucket_1ms)
    rwa [List.length_map] at this
  have hp0 : (0 : ℝ) ≤
      (((intervals ts).map bucket_1ms).count d : ℝ) / (((intervals ts).length : ℝ)) := by
    positivity
  have hp1 : (((intervals ts).map bucket_1ms).count d : ℝ) /
      (((intervals ts).length : ℝ)) ≤ 1 := by
    rw [div_le_one (by exact_mod_cast hlenpos)]
    exact_mod_cast hcountle
  have hlog : Real.logb 2
      ((((intervals ts).map bucket_1ms).count d : ℝ) / (((intervals ts).length : ℝ))) ≤ 0 :=
    Real.logb_nonpos (by norm_num) hp0 hp1
  calc (((intervals ts).map bucket_1ms).count d : ℝ) / (((intervals ts).length : ℝ)) *
        Real.logb 2
          ((((intervals ts).map bucket_1ms).count d : ℝ) / (((intervals ts).length : ℝ)))
      ≤ (((intervals ts).map bucket_1ms).count d : ℝ) / (((intervals ts).length : ℝ)) * 0 :=
        mul_le_mul_of_nonneg_left hlog hp0
    _ = 0 := mul_zero _

/-- C7: for every governor state with a positive base window,
`get_adaptive_batch_window` returns `base_batch_window × exp(−H / 5.0)` for
the computed entropy H, H is non-negative (and 0 with fewer than 2
arrivals), and the returned window `w` satisfies
`0 < w ≤ base_batch_window`. -/
theorem C7_adaptive_window (g : GovernorState) (hb : 0 < g.base_batch_window) :
    get_adaptive_batch_window g =
      g.base_batch_window * Real.exp (-(calculate_entropy g.arrival_times) / 5) ∧
    0 ≤ calculate_entropy g.arrival_times ∧
    (g.arrival_times.length < 2 → calculate_entropy g.arrival_times = 0) ∧
    0 < get_adaptive_batch_window g ∧
    get_adaptive_batch_window g ≤ g.base_batch_window := by
  have hH := calculate_entropy_nonneg g.arrival_times
  refine ⟨rfl, hH, ?_, ?_, ?_⟩
  · intro hlen
    rw [calculate_entropy, if_pos hlen]
  · exact mul_pos hb (Real.exp_pos _)
  · have h1 : Real.exp (-(calculate_entropy g.arrival_times) / 5) ≤ 1 := by
      rw [Real.exp_le_one_iff]
      linarith
    calc get_adaptive_batch_window g
        ≤ g.base_batch_window * 1 := mul_le_mul_of_nonneg_left h1 (le_of_lt hb)
      _ = g.base_batch_window := mul_one _

/-- C7 witness: the empty governor with base window 1. -/
theorem C7_adaptive_window_witness :
    0 < get_adaptive_batch_window ⟨[], 1⟩ ∧
    get_adaptive_batch_window ⟨[], 1⟩ ≤ (1 : ℝ) ∧
    calculate_entropy ([] : List ℚ) = 0 :=
  ⟨(C7_adaptive_window ⟨[], 1⟩ (by norm_num)).2.2.2.1,
   (C7_adaptive_window ⟨[], 1⟩ (by norm_num)).2.2.2.2,
   (C7_adaptive_window ⟨[], 1⟩ (by norm_num)).2.2.1 (by norm_num)⟩

/-- `tenant_stats.get(tid, 0)` over the insertion-ordered dict modelled as an
association list (src/server.py line 80). -/
def stats_get (stats : List (String × ℕ)) (tid : String) : ℕ :=
  match stats.find? (fun p => p.1 == tid) with
  | some p => p.2
  | none => 0

/-- `tenant_stats[tid] = v`: replace in place if present, else append
(Python dict update keeps insertion order). -/
def stats_set (stats : List (String × ℕ)) (tid : String) (v : ℕ) : List (String × ℕ) :=
  if stats.any (fun p => p.1 == tid) then
    stats.map (fun p => if p.1 == tid then (tid, v) else p)
  else stats ++ [(tid, v)]

/-- One iteration of the per-request stats update in `worker`
(src/server.py lines 78-80). -/
def record_request (stats : List (String × ℕ)) (r : RequestData) : List (String × ℕ) :=
  stats_set stats r.tenant_id (stats_get stats r.tenant_id + r.output_tokens_expected)

/-- The stats update for a whole processed batch (src/server.py lines 78-80). -/
def record_batch_stats (stats : List (String × ℕ)) (batch : List RequestData) :
    List (String × ℕ) :=
  batch.foldl record_request stats

/-- `jains_index` from `get_metrics` (src/server.py lines 225-236): over the
values x of `tenant_stats`, `J = (Σx)² / (n · Σx²)`; 0 when `Σx² = 0`; 1 when
the dict is empty. -/
def jains_index (stats : List (String × ℕ)) : ℚ :=
  if stats.isEmpty then 1
  else if 0 < (stats.map (fun p => ((p.2 : ℚ)))).length then
    if 0 < ((stats.map (fun p => ((p.2 : ℚ)))).map (fun x => x * x)).sum then
      (stats.map (fun p => ((p.2 : ℚ)))).sum ^ 2 /
        (((stats.map (fun p => ((p.2 : ℚ)))).length : ℚ) *
          ((stats.map (fun p => ((p.2 : ℚ)))).map (fun x => x * x)).sum)
    else 0
  else 0

/-- `sum(r.output_tokens_expected for r in reqs)`. -/
def outputs_total (reqs : List RequestData) : ℕ :=
  (reqs.map (fun r => r.output_tokens_expected)).sum

theorem isEmpty_false_of_ne_nil {α : Type} {l : List α} (h : l ≠ []) :
    l.isEmpty = false := by
  cases l with
  | nil => exact absurd rfl h
  | cons a t => rfl

theorem jains_index_const (l : List (String × ℕ)) (v : ℕ) (hne : l ≠ [])
    (hv : 0 < v) (hall : ∀ p ∈ l, p.2 = v) : jains_index l = 1 := by
  have hbe := isEmpty_false_of_ne_nil hne
  have hxs : l.map (fun p => ((p.2 : ℚ))) = List.replicate l.length ((v : ℚ)) := by
    rw [List.eq_replicate_iff]
    refine ⟨List.length_map _ _, ?_⟩
    intro b hb
    obtain ⟨p, hp, rfl⟩ := List.mem_map.mp hb
    rw [hall p hp]
  have hlpos : 0 < l.length := List.length_pos.mpr hne
  have hn0 : (0 : ℚ) < (l.length : ℚ) := by exact_mod_cast hlpos
  have hv0 : (0 : ℚ) < (v : ℚ) := by exact_mod_cast hv
  rw [jains_index, if_neg (by simp [hbe]), hxs]
  simp only [List.map_replicate, List.sum_replicate, List.length_replicate, nsmul_eq_mul]
  rw [if_pos hlpos, if_pos (by positivity)]
  field_simp
  ring

theorem record_batch_single (t : String) (reqs : List RequestData) :
    ∀ (v : ℕ), (∀ r ∈ reqs, r.tenant_id = t) →
      record_batch_stats [(t, v)] reqs = [(t, v + outputs_total reqs)] := by
  induction reqs with
  | nil => intro v _; simp [record_batch_stats, outputs_total]
  | cons r rs ih =>
      intro v hall
      have hrt : r.tenant_id = t := hall r (List.mem_cons_self r rs)
      have hstep : record_request [(t, v)] r = [(t, v + r.output_tokens_expected)] := by
        simp [record_request, stats_get, stats_set, hrt, List.find?]
      rw [record_batch_stats, List.foldl_cons, hstep]
      have hrest := ih (v + r.output_tokens_expected)
        (fun x hx => hall x (List.mem_cons_of_mem r hx))
      rw [record_batch_stats] at hrest
      rw [hrest]
      simp [outputs_total, Nat.add_assoc]

theorem record_batch_single_from_empty (t : String) (reqs : List RequestData)
    (hne : reqs ≠ []) (hall : ∀ r ∈ reqs, r.tenant_id = t) :
    record_batch_stats [] reqs = [(t, outputs_total reqs)] := by
  cases reqs with
  | nil => exact absurd rfl hne
  | cons r rs =>
      have hrt := hall r (List.mem_cons_self r rs)
      have hstep : record_request [] r = [(t, r.output_tokens_expected)] := by
        simp [record_request, stats_get, stats_set, hrt, List.find?]
      rw [record_batch_stats, List.foldl_cons, hstep]
      have hrest := record_batch_single t rs r.output_tokens_expected
        (fun x hx => hall x (List.mem_cons_of_mem r hx))
      rw [record_batch_stats] at hrest
      rw [hrest]
      simp [outputs_total]

theorem jains_index_one_nonzero (l₁ l₂ : List (String × ℕ)) (t : String) (v : ℕ)
    (hv : 0 < v) (hzero : ∀ p ∈ l₁ ++ l₂, p.2 = 0) :
    jains_index (l₁ ++ (t, v) :: l₂) =
      1 / (((l₁ ++ (t, v) :: l₂).length : ℚ)) := by
  have hne : l₁ ++ (t, v) :: l₂ ≠ [] := by simp
  have hv0 : (0 : ℚ) < (v : ℚ) := by exact_mod_cast hv
  have h1 : (l₁.map (fun p => ((p.2 : ℚ)))).sum = 0 := by
    refine List.sum_eq_zero ?_
    intro x hx
    obtain ⟨p, hp, rfl⟩ := List.mem_map.mp hx
    rw [hzero p (List.mem_append_left _ hp)]
    norm_num
  have h2 : (l₂.map (fun p => ((p.2 : ℚ)))).sum = 0 := by
    refine List.sum_eq_zero ?_
    intro x hx
    obtain ⟨p, hp, rfl⟩ := List.mem_map.mp hx
    rw [hzero p (List.mem_append_right _ hp)]
    norm_num
  have hs1 : ((l₁.map (fun p => ((p.2 : ℚ)))).map (fun x => x * x)).sum = 0 := by
    refine List.sum_eq_zero ?_
    intro x hx
    obtain ⟨y, hy, rfl⟩ := List.mem_map.mp hx
    obtain ⟨p, hp, rfl⟩ := List.mem_map.mp hy
    rw [hzero p (List.mem_append_left _ hp)]
    norm_num
  have hs2 : ((l₂.map (fun p => ((p.2 : ℚ)))).map (fun x => x * x)).sum = 0 := by
    refine List.sum_eq_zero ?_
    intro x hx
    obtain ⟨y, hy, rfl⟩ := List.mem_map.mp hx
    obtain ⟨p, hp, rfl⟩ := List.mem_map.mp hy
    rw [hzero p (List.mem_append_right _ hp)]
    norm_num
  have hlpos : 0 < (l₁ ++ (t, v) :: l₂).length := List.length_pos.mpr hne
  have hlen0 : (0 : ℚ) < ((l₁ ++ (t, v) :: l₂).length : ℚ) := by exact_mod_cast hlpos
  have hvne : ((v : ℚ)) ≠ 0 := ne_of_gt hv0
  have hlne : (((l₁ ++ (t, v) :: l₂).length : ℚ)) ≠ 0 := ne_of_gt hlen0
  rw [jains_index, if_neg (by simp [isEmpty_false_of_ne_nil hne])]
  simp only [List.map_append, List.map_cons, List.sum_append, List.sum_cons,
    h1, h2, hs1, hs2, zero_add, add_zero]
  rw [if_pos (by simp only [List.length_append, List.length_cons]; omega),
    if_pos (mul_pos hv0 hv0)]
  have hlen : (((List.map (fun p => ((p.2 : ℚ))) l₁ ++
      ((v : ℚ)) :: List.map (fun p => ((p.2 : ℚ))) l₂).length : ℚ)) =
      (((l₁ ++ (t, v) :: l₂).length : ℚ)) := by
    simp [List.length_append]
  rw [hlen]
  field_simp
  ring

/-- C8 (amended): the reported `jains_fairness_index` equals
`(Σx)² / (n · Σx²)` over the per-tenant output-token vector; with equal
per-tenant output tokens it equals 1; with all traffic on exactly one tenant
it equals 1 (not 1/k: registered tenants with no processed output never enter
`tenant_stats`, so the vector is just `[total]`); the value 1/k arises only
for a stats vector with k entries of which exactly one is nonzero. -/
theorem C8_jains_fairness_index :
    (∀ (l : List (String × ℕ)), l ≠ [] →
      0 < ((l.map (fun p => ((p.2 : ℚ)))).map (fun x => x * x)).sum →
      jains_index l = (l.map (fun p => ((p.2 : ℚ)))).sum ^ 2 /
        ((l.length : ℚ) * ((l.map (fun p => ((p.2 : ℚ)))).map (fun x => x * x)).sum)) ∧
    (∀ (l : List (String × ℕ)) (v : ℕ), l ≠ [] → 0 < v → (∀ p ∈ l, p.2 = v) →
      jains_index l = 1) ∧
    (∀ (t : String) (reqs : List RequestData), reqs ≠ [] →
      (∀ r ∈ reqs, r.tenant_id = t) → (∀ r ∈ reqs, 0 < r.output_tokens_expected) →
      jains_index (record_batch_stats [] reqs) = 1) ∧
    (∀ (l₁ l₂ : List (String × ℕ)) (t : String) (v : ℕ), 0 < v →
      (∀ p ∈ l₁ ++ l₂, p.2 = 0) →
      jains_index (l₁ ++ (t, v) :: l₂) =
        1 / (((l₁ ++ (t, v) :: l₂).length : ℚ))) := by
  refine ⟨?_, ?_, ?_, jains_index_one_nonzero⟩
  · intro l hne hsq
    rw [jains_index, if_neg (by simp [isEmpty_false_of_ne_nil hne])]
    rw [if_pos (by rw [List.length_map]; exact List.length_pos.mpr hne), if_pos hsq,
      List.length_map]
  · exact jains_index_const
  · intro t reqs hne hall hpos
    have htot : 0 < outputs_total reqs := by
      cases reqs with
      | nil => exact absurd rfl hne
      | cons r rs =>
          have hr := hpos r (List.mem_cons_self r rs)
          have : outputs_total (r :: rs) = r.output_tokens_expected + outputs_total rs := by
            simp [outputs_total]
          omega
    rw [record_batch_single_from_empty t reqs hne hall]
    exact jains_index_const [(t, outputs_total reqs)] (outputs_total reqs) (by simp) htot
      (by simp)

/-- Two requests from tenant `a` (50 output tokens each), as in the spec's
S1 scenario. -/
def c8_req1 : RequestData := ⟨"q1", "a", "x", 10, 50, 1, 0⟩

def c8_req2 : RequestData := ⟨"q2", "a", "y", 10, 50, 1, 1⟩

/-- C8 claimed the index is 1/k with all traffic on one of k registered
tenants.  With tenants a and b registered and all processed traffic from a,
`tenant_stats` holds only a's 100 output tokens, so the code reports 1, not
1/2. -/
theorem C8_jains_counterexample :
    (run_ops init_manager
        [.register ⟨"a", 1, 100⟩ 0, .register ⟨"b", 1, 100⟩ 0]).configs "a" =
      some ⟨"a", 1, 100⟩ ∧
    (run_ops init_manager
        [.register ⟨"a", 1, 100⟩ 0, .register ⟨"b", 1, 100⟩ 0]).configs "b" =
      some ⟨"b", 1, 100⟩ ∧
    record_batch_stats [] [c8_req1, c8_req2] = [("a", 100)] ∧
    jains_index [("a", 100)] = 1 ∧
    (1 : ℚ) ≠ 1 / 2 := by
  refine ⟨by decide, by decide, by decide, ?_, by norm_num⟩
  rw [show jains_index [("a", 100)] = 1 from
    jains_index_const [("a", 100)] 100 (by simp) (by norm_num) (by simp)]

/-- C8 witness: a batch of two tenant-a requests yields index 1, and a
two-entry vector with one nonzero value yields 1/2. -/
theorem C8_jains_witness :
    jains_index (record_batch_stats [] [c8_req1, c8_req2]) = 1 ∧
    jains_index ([] ++ ("a", 2) :: [("b", 0)]) =
      1 / (((([] ++ ("a", 2) :: [("b", 0)]) : List (String × ℕ)).length : ℚ)) :=
  ⟨C8_jains_fairness_index.2.2.1 "a" [c8_req1, c8_req2] (by decide) (by decide) (by decide),
   C8_jains_fairness_index.2.2.2 [] [("b", 0)] "a" 2 (by norm_num) (by decide)⟩

end Scheduler
